import Mathlib

/-!
Verification of the streaming-protocol client of the ACAB repository
(`src/api/openjusticeApi.js`): the status-line parser, the SSE event-frame
decoder, the event-dispatch logic mutating the response accumulator, and the
chunk-buffering stream consumer.

Strings are modelled as `List Char` (one JS UTF-16 string ≈ one list of
unicode scalars).  JSON numbers are kept as their source lexemes (the client
never computes with them), and `undefined` is conflated with `null` (the
dispatch logic never distinguishes them observably).  A thrown JS exception is
modelled by the `Except` error branch carrying the state mutated so far, which
is exactly what the `try`/`catch` around the dispatch observes.
-/

namespace ACAB

/-- JS whitespace: the character set matched by `\s` in a JS regex and removed
by `String.prototype.trim` (WhiteSpace ∪ LineTerminator). -/
def isJsWs (c : Char) : Bool :=
  c.val == 9 || c.val == 10 || c.val == 11 || c.val == 12 || c.val == 13 ||
  c.val == 32 || c.val == 0xA0 || c.val == 0x1680 ||
  (0x2000 ≤ c.val && c.val ≤ 0x200A) ||
  c.val == 0x2028 || c.val == 0x2029 || c.val == 0x202F || c.val == 0x205F ||
  c.val == 0x3000 || c.val == 0xFEFF

/-- `String.prototype.trim`. -/
def trimJs (s : List Char) : List Char :=
  ((s.dropWhile isJsWs).reverse.dropWhile isJsWs).reverse

/-- `str.split(sep)` for a single-character separator (every occurrence). -/
def splitCh (sep : Char) : List Char → List (List Char)
  | [] => [[]]
  | c :: r =>
    if c = sep then [] :: splitCh sep r
    else
      match splitCh sep r with
      | [] => [[c]]
      | h :: t => (c :: h) :: t

/-- `buffer.split("\n\n")` (leftmost, non-overlapping), presented as the pair
(all complete frames, trailing remainder) — i.e. (`events` after the `pop()`,
the popped last element) in `startStream`. -/
def splitNN : List Char → List (List Char) × List Char
  | [] => ([], [])
  | [c] => ([], [c])
  | c1 :: c2 :: r =>
    if c1 = '\n' ∧ c2 = '\n' then
      let p := splitNN r
      ([] :: p.1, p.2)
    else
      let p := splitNN (c2 :: r)
      match p.1 with
      | [] => ([], c1 :: p.2)
      | h :: t => ((c1 :: h) :: t, p.2)

mutual

/-- JSON values as produced by `JSON.parse`.  Numbers are kept as their raw
lexemes; object fields are kept in source order (a later duplicate key wins on
lookup, as in JS). -/
inductive Json where
  | null : Json
  | bool (b : Bool) : Json
  | num (lexeme : List Char) : Json
  | str (s : List Char) : Json
  | arr (elems : JsonArr) : Json
  | obj (fields : JsonObj) : Json
deriving DecidableEq

/-- A JSON array's element list. -/
inductive JsonArr where
  | nil : JsonArr
  | cons (head : Json) (tail : JsonArr) : JsonArr
deriving DecidableEq

/-- A JSON object's field list, in source order. -/
inductive JsonObj where
  | nil : JsonObj
  | cons (key : List Char) (val : Json) (tail : JsonObj) : JsonObj
deriving DecidableEq

end

/-- Whitespace accepted between JSON tokens by `JSON.parse`. -/
def isJsonWs (c : Char) : Bool :=
  c.val == 32 || c.val == 9 || c.val == 10 || c.val == 13

def skipWs (s : List Char) : List Char := s.dropWhile isJsonWs

def isDigit (c : Char) : Bool := '0' ≤ c && c ≤ '9'

def hexVal (c : Char) : Option Nat :=
  let n := c.toNat
  if 48 ≤ n ∧ n ≤ 57 then some (n - 48)
  else if 97 ≤ n ∧ n ≤ 102 then some (n - 87)
  else if 65 ≤ n ∧ n ≤ 70 then some (n - 55)
  else none

/-- The single-character escapes of a JSON string, paired with what they
denote. -/
def jsonEscapes : List (Char × Char) :=
  [('"', '"'), ('\\', '\\'), ('/', '/'), ('b', Char.ofNat 8), ('f', Char.ofNat 12),
   ('n', '\n'), ('r', Char.ofNat 13), ('t', '\t')]

def hex4 (a b c d : Char) : Option Nat :=
  match hexVal a, hexVal b, hexVal c, hexVal d with
  | some x, some y, some z, some w => some (((x * 16 + y) * 16 + z) * 16 + w)
  | _, _, _, _ => none

/-- Decode the body of a JSON string literal (after the opening quote), up to
and past the closing quote.  Each `\uXXXX` escape is decoded on its own; a
surrogate code unit becomes U+FFFD (Lean chars are unicode scalars, so UTF-16
surrogate pairs of astral characters are not reassembled — no dispatch
behaviour in the client depends on such payloads). -/
def parseStringBody : List Char → Option (List Char × List Char)
  | [] => none
  | '"' :: r => some ([], r)
  | '\\' :: 'u' :: h1 :: h2 :: h3 :: h4 :: r =>
    match hex4 h1 h2 h3 h4 with
    | none => none
    | some n =>
      if 0xD800 ≤ n ∧ n ≤ 0xDFFF then
        (parseStringBody r).map (fun p => (Char.ofNat 0xFFFD :: p.1, p.2))
      else
        (parseStringBody r).map (fun p => (Char.ofNat n :: p.1, p.2))
  | '\\' :: e :: r =>
    match (jsonEscapes.find? (fun q => q.1 == e)).map Prod.snd with
    | none => none
    | some c => (parseStringBody r).map (fun p => (c :: p.1, p.2))
  | c :: r =>
    if c.val < 0x20 then none
    else (parseStringBody r).map (fun p => (c :: p.1, p.2))


/-- Lex a strict-JSON number, returning its lexeme. -/
def parseNum (s : List Char) : Option (Json × List Char) :=
  let (sgn, s1) := match s with
                   | '-' :: r => (['-'], r)
                   | _ => ([], s)
  match s1 with
  | [] => none
  | c :: r =>
    if ¬ isDigit c then none
    else
      let (ip, s2) :=
        if c = '0' then ([c], r)
        else (c :: r.takeWhile isDigit, r.dropWhile isDigit)
      let (fp, s3) := match s2 with
                      | '.' :: r2 =>
                        if (r2.takeWhile isDigit).isEmpty then ([], s2)
                        else ('.' :: r2.takeWhile isDigit, r2.dropWhile isDigit)
                      | _ => ([], s2)
      -- a '.' not followed by a digit makes the whole number invalid
      match s2, fp with
      | '.' :: _, [] => none
      | _, _ =>
        match (match s3 with
               | 'e' :: r3 => expPart 'e' r3
               | 'E' :: r3 => expPart 'E' r3
               | _ => some ([], s3)) with
        | none => none
        | some (ep, s4) => some (Json.num (sgn ++ ip ++ fp ++ ep), s4)
where
  expPart (e : Char) (r : List Char) : Option (List Char × List Char) :=
    let (sg, r2) := match r with
                    | '+' :: r2 => (['+'], r2)
                    | '-' :: r2 => (['-'], r2)
                    | _ => ([], r)
    if (r2.takeWhile isDigit).isEmpty then none
    else some (e :: sg ++ r2.takeWhile isDigit, r2.dropWhile isDigit)

/-- Consume the rest of a keyword (`null`, `true`, `false`). -/
def keyword (kw : List Char) (s : List Char) : Option (List Char) :=
  if kw.isPrefixOf s then some (s.drop kw.length) else none

mutual

/-- One JSON value (fuelled recursion; the fuel passed at top level always
suffices because every recursive call consumes at least one input char). -/
def parseVal : Nat → List Char → Option (Json × List Char)
  | 0, _ => none
  | fuel + 1, s =>
    match skipWs s with
    | [] => none
    | 'n' :: r => (keyword ['u', 'l', 'l'] r).map (fun r2 => (Json.null, r2))
    | 't' :: r => (keyword ['r', 'u', 'e'] r).map (fun r2 => (Json.bool true, r2))
    | 'f' :: r => (keyword ['a', 'l', 's', 'e'] r).map (fun r2 => (Json.bool false, r2))
    | '"' :: r => (parseStringBody r).map (fun p => (Json.str p.1, p.2))
    | '[' :: r =>
      (match skipWs r with
       | ']' :: r2 => some (Json.arr JsonArr.nil, r2)
       | _ => (parseElems fuel r).map (fun p => (Json.arr p.1, p.2)))
    | c :: r =>
      if c = Char.ofNat 0x7B then
        match skipWs r with
        | d :: r2 =>
          if d = Char.ofNat 0x7D then some (Json.obj JsonObj.nil, r2)
          else (parseMembers fuel r).map (fun p => (Json.obj p.1, p.2))
        | [] => none
      else if c = '-' || isDigit c then parseNum (c :: r) else none
termination_by structural fuel _ => fuel

/-- Comma-separated array elements, up to and past the closing bracket. -/
def parseElems : Nat → List Char → Option (JsonArr × List Char)
  | 0, _ => none
  | fuel + 1, s =>
    match parseVal fuel s with
    | none => none
    | some (v, r) =>
      match skipWs r with
      | ',' :: r2 => (parseElems fuel r2).map (fun p => (JsonArr.cons v p.1, p.2))
      | ']' :: r2 => some (JsonArr.cons v JsonArr.nil, r2)
      | _ => none
termination_by structural fuel _ => fuel

/-- Comma-separated object members, up to and past the closing brace. -/
def parseMembers : Nat → List Char → Option (JsonObj × List Char)
  | 0, _ => none
  | fuel + 1, s =>
    match skipWs s with
    | '"' :: r =>
      match parseStringBody r with
      | none => none
      | some (k, r2) =>
        match skipWs r2 with
        | ':' :: r3 =>
          match parseVal fuel r3 with
          | none => none
          | some (v, r4) =>
            match skipWs r4 with
            | ',' :: r5 => (parseMembers fuel r5).map (fun p => (JsonObj.cons k v p.1, p.2))
            | d :: r5 => if d = Char.ofNat 0x7D then some (JsonObj.cons k v JsonObj.nil, r5) else none
            | [] => none
        | _ => none
    | _ => none
termination_by structural fuel _ => fuel

end

/-- `JSON.parse`: `none` models a thrown `SyntaxError`. -/
def parseJson (s : List Char) : Option Json :=
  match parseVal (s.length + 1) s with
  | some (v, r) => if (skipWs r).isEmpty then some v else none
  | none => none

/-- Truthiness of the digits of a number lexeme: a JSON number is falsy iff
its value is 0, i.e. its mantissa has no nonzero digit.  (Exponent-underflow
to floating-point zero is not modelled; no dispatch decision depends on
numeric payloads.) -/
def numTruthy (lex : List Char) : Bool :=
  (lex.takeWhile (fun c => c != 'e' && c != 'E')).any (fun c => '1' ≤ c && c ≤ '9')

/-- JS truthiness of a JSON value (`undefined` is conflated with `null`). -/
def jsTruthy : Json → Bool
  | Json.null => false
  | Json.bool b => b
  | Json.num l => numTruthy l
  | Json.str s => !s.isEmpty
  | Json.arr _ => true
  | Json.obj _ => true

/-- JS `a || b`. -/
def jsOr (a b : Json) : Json := if jsTruthy a then a else b

/-- Last-binding-wins field lookup in an object's field list. -/
def lookLast : JsonObj → List Char → Json → Json
  | JsonObj.nil, _, acc => acc
  | JsonObj.cons key v t, k, acc => lookLast t k (if key = k then v else acc)

/-- JS property read `j.k` on a non-nullish receiver: absent key or a
primitive/array receiver gives `undefined`, conflated with `null`.  (A `null`
receiver throws instead; the dispatch models that at its call sites.) -/
def getField (j : Json) (k : List Char) : Json :=
  match j with
  | Json.obj fs => lookLast fs k Json.null
  | _ => Json.null

mutual

/-- JS `String(v)` for the values the dispatch can coerce (the question text
of an `awaiting-user-input` payload).  Number formatting is approximated by
the lexeme itself. -/
def jsToString : Json → List Char
  | Json.null => "null".data
  | Json.bool true => "true".data
  | Json.bool false => "false".data
  | Json.num l => l
  | Json.str s => s
  | Json.arr es => jsToStringArr es
  | Json.obj _ => "[object Object]".data

/-- `Array.prototype.toString`: elements joined by commas, null/undefined
elements rendered empty. -/
def jsToStringArr : JsonArr → List Char
  | JsonArr.nil => []
  | JsonArr.cons j JsonArr.nil =>
    (match j with
     | Json.null => []
     | _ => jsToString j)
  | JsonArr.cons j t =>
    (match j with
     | Json.null => []
     | _ => jsToString j) ++ ',' :: jsToStringArr t

end

/-! ### The two regexes of `parseStatusLine`, with JS backtracking semantics

`/━━━━━━\s+(.+?)\s+━━━━━━/` (unanchored search) and
`/^(.+?)\s*\((.+?)\)$/` (anchored).  Greedy pieces try longest first, lazy
pieces shortest first, and the search tries start positions left to right —
the candidate orders below reproduce the JS engine's backtracking order. -/

/-- The repeated marker glyph `━` (U+2501), six times. -/
def markerL : List Char := List.replicate 6 (Char.ofNat 0x2501)

/-- JS regex `.`: any character except a line terminator. -/
def isDot (c : Char) : Bool :=
  !(c.val == 10 || c.val == 13 || c.val == 0x2028 || c.val == 0x2029)

/-- All splits `(w, rest)` of `s` with `w` a whitespace prefix, longest first
(the backtracking order of a greedy `\s*`). -/
def wsSplitsDesc : List Char → List (List Char × List Char)
  | [] => [([], [])]
  | c :: t =>
    if isJsWs c then
      ((wsSplitsDesc t).map (fun p => (c :: p.1, p.2))) ++ [([], c :: t)]
    else [([], c :: t)]

/-- Candidate splits for a greedy `\s+`: as `wsSplitsDesc` but the taken
prefix must be nonempty. -/
def wsPlusSplitsDesc (s : List Char) : List (List Char × List Char) :=
  (wsSplitsDesc s).filter (fun p => !p.1.isEmpty)

/-- All splits `(d, rest)` of `s` with `d` a nonempty prefix of `.`-matching
characters, shortest first (the backtracking order of a lazy `(.+?)`). -/
def dotSplitsAsc : List Char → List (List Char × List Char)
  | [] => []
  | c :: t =>
    if isDot c then ([c], t) :: (dotSplitsAsc t).map (fun p => (c :: p.1, p.2))
    else []

/-- Match `\s+━━━━━━` followed by anything, returning the whitespace run and
what follows the closing marker. -/
def matchTail (s : List Char) : Option (List Char × List Char) :=
  (wsPlusSplitsDesc s).findSome? (fun p =>
    if markerL.isPrefixOf p.2 then some (p.1, p.2.drop 6) else none)

/-- Match `\s+(.+?)\s+━━━━━━` (the part of the status-line regex after the
opening marker), returning `(w1, capture, w2, rest)`. -/
def matchAfterMarker (s : List Char) : Option (List Char × List Char × List Char × List Char) :=
  (wsPlusSplitsDesc s).findSome? (fun p =>
    (dotSplitsAsc p.2).findSome? (fun q =>
      (matchTail q.2).map (fun t => (p.1, q.1, t.1, t.2))))

/-- Unanchored search for `━━━━━━\s+(.+?)\s+━━━━━━`, left to right, returning
`(prefix before the match, w1, capture, w2, rest after the match)`. -/
def findEnvelope : List Char → Option (List Char × List Char × List Char × List Char × List Char)
  | [] => none
  | c :: t =>
    match (if markerL.isPrefixOf (c :: t) then matchAfterMarker ((c :: t).drop 6) else none) with
    | some (w1, cap, w2, post) => some ([], w1, cap, w2, post)
    | none => (findEnvelope t).map (fun q => (c :: q.1, q.2))

/-- Match `^(.+?)\s*\((.+?)\)$` against `s`, returning the two captures. -/
def matchTitleStatus (s : List Char) : Option (List Char × List Char) :=
  (dotSplitsAsc s).findSome? (fun p =>
    (wsSplitsDesc p.2).findSome? (fun w =>
      match w.2 with
      | '(' :: r3 =>
        (dotSplitsAsc r3).findSome? (fun q =>
          match q.2 with
          | [')'] => some (p.1, q.1)
          | _ => none)
      | _ => none))

/-- The record returned by `parseStatusLine`. -/
structure PStatus where
  type : List Char
  title : List Char
  status : Option (List Char)
deriving DecidableEq

/-- `parseStatusLine` from `src/src/api/openjusticeApi.js` (lines 132-161):
regex-match the decorative envelope, split the captured content on the first
colon into `type` and `rest`, then try to split `rest` into `title (status)`. -/
def parseStatusLine (text : List Char) : Option PStatus :=
  match findEnvelope text with
  | none => none
  | some (_, _, content, _, _) =>
    if content.contains ':' then
      let type := trimJs (content.takeWhile (fun c => c != ':'))
      let rest := trimJs ((content.dropWhile (fun c => c != ':')).drop 1)
      match matchTitleStatus rest with
      | some (g1, g2) => some ⟨type, trimJs g1, some (trimJs g2)⟩
      | none => some ⟨type, rest, none⟩
    else none

/-- The SSE frame decoder inlined at the top of `processEvent` (lines
171-192): keep the nonblank lines, trim each, let an `event:` line overwrite
the event type (default `"message"`), and collect the remainders of `data:`
lines, newline-joined. -/
def decodeFrame (eventText : List Char) : List Char × List Char :=
  let lines := (splitCh '\n' eventText).filter (fun l => !(trimJs l).isEmpty)
  let r := lines.foldl (fun (acc : List Char × List (List Char)) line =>
      let t := trimJs line
      if "event:".data.isPrefixOf t then (trimJs (t.drop 6), acc.2)
      else if "data:".data.isPrefixOf t then (acc.1, acc.2 ++ [t.drop 5])
      else acc)
    ("message".data, [])
  (r.1, List.intercalate ['\n'] r.2)

/-! ### The response accumulator and the event dispatch

`fullResponse` is the mutable accumulator built in `startStream` (lines
442-451) and mutated only by `processEvent`.  The `success` and
`conversationId` fields are constants never read or written by the dispatch
and are omitted.  Each JS statement of the dispatch becomes one step of a
script; running the script threads the accumulator and the list of `onUpdate`
invocations, and a thrown exception (`JSON.parse` failure, a `TypeError`, or
a throwing `onUpdate` callback) is the `Except` error branch, which the
enclosing `try`/`catch` swallows, keeping the mutations made so far. -/

/-- The `{type, title, status}` objects stored in `currentStatus` and passed
to `onUpdate` (fields are dynamic JS values). -/
structure StatusRec where
  type : Json
  title : Json
  status : Json
deriving DecidableEq

/-- The record produced by `parseStatusLine` viewed as a dynamic value. -/
def PStatus.toRec (p : PStatus) : StatusRec :=
  ⟨Json.str p.type, Json.str p.title, (p.status.map Json.str).getD Json.null⟩

/-- The mutable response accumulator (`fullResponse`). -/
structure Acc where
  outputText : List Char
  complete : Bool
  awaitingInput : Bool
  currentStatus : Option StatusRec
  shouldAccumulate : Bool
  executionId : Json
  awaitingInputMessage : Json
deriving DecidableEq

/-- The argument `{content, status}` of one `onUpdate` invocation. -/
structure Update where
  content : List Char
  status : Option StatusRec
deriving DecidableEq

/-- Dispatch state: the accumulator plus the `onUpdate` calls made so far. -/
abbrev RunSt := Acc × List Update

/-- A callback model: `cb u = true` means `onUpdate` throws on argument `u`. -/
abbrev Cb := Update → Bool

/-- One primitive statement of the dispatch: a field mutation, an `onUpdate`
call, or a statement that throws (a `TypeError`). -/
inductive SStep where
  | assign (f : Acc → Acc) : SStep
  | call (g : Acc → Update) : SStep
  | fail : SStep

/-- Invoke `onUpdate`: the call is recorded, and if the callback throws the
error carries the state as mutated so far. -/
def emit (cb : Cb) (u : Update) (s : RunSt) : Except RunSt RunSt :=
  if cb u then Except.error (s.1, s.2 ++ [u]) else Except.ok (s.1, s.2 ++ [u])

/-- Run a script of dispatch statements in order; an error abandons the rest
of the script but keeps the state reached. -/
def runScript (cb : Cb) : List SStep → RunSt → Except RunSt RunSt
  | [], s => Except.ok s
  | SStep.assign f :: r, s => runScript cb r (f s.1, s.2)
  | SStep.call g :: r, s =>
    match emit cb (g s.1) s with
    | Except.ok s2 => runScript cb r s2
    | Except.error s2 => Except.error s2
  | SStep.fail :: _, s => Except.error s

/-- The `try`/`catch` around the dispatch: either way the mutations made so
far survive. -/
def unwrap : Except RunSt RunSt → RunSt
  | Except.ok s => s
  | Except.error s => s

/-- The per-line loop of the `message` case (lines 207-231): state is
(accumulator, `hasStatusLine`, `contentToAdd`). -/
def lineStep (st : Acc × Bool × List Char) (line : List Char) : Acc × Bool × List Char :=
  match parseStatusLine line with
  | some si =>
    if si.type = "OUTCOME".data ∧ si.status = some "Finished".data then
      ({st.1 with currentStatus := none, shouldAccumulate := true}, true, st.2.2)
    else
      ({st.1 with currentStatus := some si.toRec, shouldAccumulate := false}, true, st.2.2)
  | none =>
    if st.1.shouldAccumulate then (st.1, st.2.1, st.2.2 ++ line ++ ['\n'])
    else st

/-- Run the `message` line loop over `text.split("\n")`. -/
def foldLines (text : List Char) (a : Acc) : Acc × Bool × List Char :=
  (splitCh '\n' text).foldl lineStep (a, false, [])

/-- The `message` case of the dispatch (lines 198-271) as a script.  The
script's branch structure is computed from the accumulator at entry, which is
exactly the accumulator the statements see at run time. -/
def msgScript (text : List Char) (a0 : Acc) : List SStep :=
  let r := foldLines text a0
  let a1 := r.1
  let has := r.2.1
  let content := r.2.2
  [SStep.assign (fun a => (foldLines text a).1)] ++
  (if has then [SStep.call (fun a => ⟨a.outputText, a.currentStatus⟩)] else []) ++
  (if a1.shouldAccumulate && !content.isEmpty then
    [SStep.assign (fun a => {a with outputText := a.outputText ++ content}),
     SStep.call (fun a => ⟨a.outputText, none⟩)]
  else if !has && a1.shouldAccumulate then
    [SStep.assign (fun a => {a with outputText := a.outputText ++ text}),
     SStep.call (fun a => ⟨a.outputText, none⟩)]
  else if !has && a1.awaitingInput then
    [SStep.assign (fun a => {a with outputText := a.outputText ++ text}),
     SStep.call (fun a => ⟨a.outputText, none⟩)]
  else if !has then
    [SStep.call (fun a => ⟨a.outputText, a.currentStatus⟩)]
  else [])

/-- `node.nodeType?.toUpperCase() || dflt`: nullish gives the default, a
string is uppercased (empty string is falsy, so also the default), any other
value throws a `TypeError` (`none` here).  ASCII uppercasing only — the node
types in play are ASCII. -/
def upperOrDefault (j : Json) (dflt : List Char) : Option (List Char) :=
  match j with
  | Json.null => some dflt
  | Json.str s => some (if s.isEmpty then dflt else s.map Char.toUpper)
  | _ => none

/-- The `node-result` case of the dispatch (lines 273-317) as a script.
Consecutive field assignments with no observable point between them (no
`onUpdate` call and no throwing expression) are one `mut` step. -/
def nodeScript (node : Json) : List SStep :=
  let status := getField node "status".data
  if status = Json.str "running".data then
    match upperOrDefault (getField node "nodeType".data) "PROCESSING".data with
    | none => [SStep.fail]
    | some ty =>
      let st : StatusRec :=
        ⟨Json.str ty, jsOr (getField node "title".data) (Json.str "Processing".data),
         jsOr (getField node "description".data) (Json.str "in progress".data)⟩
      [SStep.assign (fun a => {a with currentStatus := some st, shouldAccumulate := false}),
       SStep.call (fun a => ⟨a.outputText, a.currentStatus⟩)]
  else if status = Json.str "completed".data ∧
          getField node "nodeType".data = Json.str "outcome".data then
    [SStep.assign (fun a => {a with shouldAccumulate := true, currentStatus := none}),
     SStep.call (fun a => ⟨a.outputText, none⟩)]
  else if status = Json.str "completed".data then
    (match upperOrDefault (getField node "nodeType".data) "COMPLETED".data with
     | none =>
       -- `shouldAccumulate = false` lands before the object literal throws
       [SStep.assign (fun a => {a with shouldAccumulate := false}), SStep.fail]
     | some ty =>
       let st : StatusRec :=
         ⟨Json.str ty, jsOr (getField node "title".data) (Json.str "Completed".data),
          Json.str "completed".data⟩
       [SStep.assign (fun a => {a with shouldAccumulate := false, currentStatus := some st}),
        SStep.call (fun a => ⟨a.outputText, a.currentStatus⟩)])
  else []

/-- `haystack.includes(needle)`: substring containment. -/
def jsIncludes : List Char → List Char → Bool
  | h, n =>
    if n.isPrefixOf h then true
    else
      match h with
      | [] => false
      | _ :: t => jsIncludes t n

/-- The `awaiting-user-input` case of the dispatch (lines 319-361) as a
script.  The question-append test reads `outputText` at entry, which the
preceding mutations have not changed. -/
def awaitScript (input : Json) (a0 : Acc) : List SStep :=
  let q := jsOr (getField input "message".data)
             (jsOr (getField input "question".data) (getField input "prompt".data))
  [SStep.assign (fun a => {a with executionId := getField input "executionId".data}),
   SStep.assign (fun a => {a with complete := true}),
   SStep.assign (fun a => {a with awaitingInput := true}),
   SStep.assign (fun a => {a with currentStatus := none, shouldAccumulate := true})] ++
  (if jsTruthy q then
    (if jsTruthy q && !(jsIncludes a0.outputText (jsToString q)) then
      [SStep.assign (fun a =>
        let sep : List Char := if !(trimJs a.outputText).isEmpty then "\n\n".data else []
        {a with outputText := a.outputText ++ sep ++ jsToString q})]
    else [])
  else []) ++
  [SStep.assign (fun a => {a with awaitingInputMessage := jsOr q Json.null}),
   SStep.call (fun a => ⟨a.outputText, none⟩)]

/-- The whole body of `processEvent` (lines 170-371) as a script: decode the
frame, drop it if `data` is empty, JSON-decode (`fail` on a parse error), and
dispatch on the event type.  A member access on a `null` payload throws. -/
def eventScript (eventText : List Char) (a0 : Acc) : List SStep :=
  let et := (decodeFrame eventText).1
  let data := (decodeFrame eventText).2
  if data.isEmpty then []
  else
    match parseJson data with
    | none => [SStep.fail]
    | some parsed =>
      if et = "message".data then
        match parsed with
        | Json.null => [SStep.fail]
        | _ =>
          let t := getField parsed "text".data
          if jsTruthy t then
            match t with
            | Json.str txt => msgScript txt a0
            | _ => [SStep.fail]
          else []
      else if et = "node-result".data then
        match parsed with
        | Json.null => [SStep.fail]
        | _ => nodeScript parsed
      else if et = "awaiting-user-input".data then
        match parsed with
        | Json.null => [SStep.fail]
        | _ => awaitScript parsed a0
      else []

/-- `processEvent` with an explicit (possibly throwing) `onUpdate` model:
returns the accumulator after the dispatch and the `onUpdate` calls made. -/
def processEventCb (cb : Cb) (eventText : List Char) (acc : Acc) : Acc × List Update :=
  unwrap (runScript cb (eventScript eventText acc) (acc, []))

/-- `processEvent` with a non-throwing `onUpdate`. -/
def processEvent (eventText : List Char) (acc : Acc) : Acc × List Update :=
  processEventCb (fun _ => false) eventText acc

/-! ### The stream consumer (`startStream`, lines 442-477) -/

/-- Consumer state: the accumulator, the rolling text buffer, and all
`onUpdate` calls so far. -/
structure CState where
  acc : Acc
  buffer : List Char
  ups : List Update
deriving DecidableEq

/-- Dispatch one complete frame, skipping blank frames
(`if (eventText.trim()) processEvent(...)`). -/
def stepFrame (st : CState) (f : List Char) : CState :=
  if (trimJs f).isEmpty then st
  else
    let r := processEvent f st.acc
    ⟨r.1, st.buffer, st.ups ++ r.2⟩

/-- One iteration of the read loop: append the chunk, split on the frame
delimiter, dispatch every complete frame in order, keep the remainder. -/
def feedChunk (st : CState) (chunk : List Char) : CState :=
  let p := splitNN (st.buffer ++ chunk)
  let st2 := p.1.foldl stepFrame st
  {st2 with buffer := p.2}

/-- The fresh accumulator of `startStream` for a new execution. -/
def initAcc : Acc :=
  ⟨[], false, false, none, false, Json.null, Json.null⟩

def initCState : CState := ⟨initAcc, [], []⟩

/-- End of stream: flush a nonblank remainder as a final frame, then set
`complete`. -/
def finishStream (st : CState) : Acc × List Update :=
  let st2 := stepFrame st st.buffer
  ({st2.acc with complete := true}, st2.ups)

/-- Feed a whole stream, delivered as a list of chunks, through the consumer. -/
def runStream (chunks : List (List Char)) : Acc × List Update :=
  finishStream (chunks.foldl feedChunk initCState)

/-! ### Specification-side definitions and concrete inputs -/

/-- The accumulator invariant: whenever accumulation is enabled, the status
indicator is cleared. -/
def AccInv (a : Acc) : Prop := a.shouldAccumulate = true → a.currentStatus = none

/-- A line that *exactly* is the marker-enclosed envelope: marker, whitespace,
captured content containing a colon, whitespace, marker — nothing before or
after.  (The literal reading of the claimed `parseStatusLine` contract.) -/
def ExactEnvelope (L : List Char) : Prop :=
  ∃ w1 c w2, L = markerL ++ w1 ++ c ++ w2 ++ markerL ∧
    w1 ≠ [] ∧ w1.all isJsWs = true ∧ c ≠ [] ∧ w2 ≠ [] ∧ w2.all isJsWs = true ∧ ':' ∈ c

/-- A line that *contains* the marker-enclosed envelope — marker, whitespace,
captured content containing a colon, whitespace, marker — as a substring
(the regex in the source is unanchored). -/
def ContainsEnvelope (L : List Char) : Prop :=
  ∃ pre w1 c w2 post, L = pre ++ markerL ++ w1 ++ c ++ w2 ++ markerL ++ post ∧
    w1 ≠ [] ∧ w1.all isJsWs = true ∧ c ≠ [] ∧ w2 ≠ [] ∧ w2.all isJsWs = true ∧ ':' ∈ c

/-- The frame decoder exactly as the claim words it: over the *raw* lines of
the frame, an `event:`-prefixed line overwrites the event type, and `data`
is the newline-join of each raw `data:`-prefixed line's remainder after the
5-character prefix, verbatim. -/
def decodeFrameLit (eventText : List Char) : List Char × List Char :=
  let ls := splitCh '\n' eventText
  (ls.foldl (fun a l => if "event:".data.isPrefixOf l then trimJs (l.drop 6) else a)
     "message".data,
   List.intercalate ['\n']
     ((ls.filter (fun l => "data:".data.isPrefixOf l)).map (fun l => l.drop 5)))

/-- The frame decoder as the amended claim words it: blank lines are dropped
and every line is first trimmed of surrounding whitespace; then an `event:`
prefix overwrites the event type (remainder trimmed), and `data` is the
newline-join of the trimmed `data:` lines' remainders after the 5-character
prefix, not trimmed further. -/
def decodeFrameSpec (eventText : List Char) : List Char × List Char :=
  let ls := ((splitCh '\n' eventText).map trimJs).filter (fun l => !l.isEmpty)
  (ls.foldl (fun a l => if "event:".data.isPrefixOf l then trimJs (l.drop 6) else a)
     "message".data,
   List.intercalate ['\n']
     ((ls.filter (fun l => "data:".data.isPrefixOf l)).map (fun l => l.drop 5)))

/-- Frame 1 of the end-to-end scenario, as one chunk (frame text plus the
blank-line delimiter). -/
def scenarioChunk1 : List Char :=
  "event: message\ndata: \x7b\"text\":\"━━━━━━ OUTCOME: X (Finished) ━━━━━━\\nHello \"\x7d\n\n".data

/-- Frame 2 of the end-to-end scenario, as one chunk. -/
def scenarioChunk2 : List Char :=
  "event: message\ndata: \x7b\"text\":\"world.\"\x7d\n\n".data

/-- The three inputs of the end-to-end scenario: frame 1, frame 2, and then
end-of-stream (`runStream` applies the end-of-stream step). -/
def scenarioChunks : List (List Char) := [scenarioChunk1, scenarioChunk2]

/-- The status line of the `parseStatusLine` example. -/
def statusLineExample : List Char :=
  "━━━━━━ OUTCOME: Legal reasoning (Finished) ━━━━━━".data

/-- A line that contains the envelope but is not exactly it. -/
def statusLinePadded : List Char := "x━━━━━━ A: B ━━━━━━".data

/-- A frame whose `data:` line carries trailing whitespace. -/
def frameTrailingWs : List Char := "data: hi ".data

/-- An `awaiting-user-input` frame carrying only an execution id. -/
def frameAwaitId : List Char :=
  "event: awaiting-user-input\ndata: \x7b\"executionId\":\"e1\"\x7d".data

/-- An `awaiting-user-input` frame carrying an execution id and a question. -/
def frameAwaitQ : List Char :=
  "event: awaiting-user-input\ndata: \x7b\"executionId\":\"e1\",\"question\":\"Q!\"\x7d".data

/-- An accumulator whose `outputText` is whitespace-only (reachable, e.g.
after accumulating a blank line). -/
def accWsOnly : Acc := {initAcc with outputText := " ".data}

/-- A frame whose `data` is not valid JSON. -/
def frameBadJson : List Char := "data: \x7bnot json".data

/-- A frame that parses and updates state (used to exercise hypotheses). -/
def frameRunning : List Char :=
  "event: node-result\ndata: \x7b\"status\":\"running\",\"nodeType\":\"switch\",\"title\":\"Switch\"\x7d".data

/-! ## Lemmas -/

/-- If splitting produced no complete frame, the leftover is the whole input. -/
theorem splitNN_leftover : ∀ (s : List Char), (splitNN s).1 = [] → (splitNN s).2 = s := by
  intro s
  induction s using splitNN.induct with
  | case1 => intro _; rfl
  | case2 c => intro _; rfl
  | case3 c1 c2 r hd ih =>
    intro h
    rw [splitNN, if_pos hd] at h
    simp at h
  | case4 c1 c2 r hnd p hp ih =>
    have hp' : (splitNN (c2 :: r)).1 = [] := hp
    intro _
    rw [splitNN, if_neg hnd]
    simp only [hp']
    rw [ih hp']
  | case5 c1 c2 r hnd p h0 t0 hp ih =>
    have hp' : (splitNN (c2 :: r)).1 = h0 :: t0 := hp
    intro h
    rw [splitNN, if_neg hnd] at h
    simp only [hp'] at h
    simp at h

/-- Splitting a concatenation: the complete frames of `s` come first, and the
rest is the split of `s`'s leftover followed by `t`.  This is the
buffer-boundary insensitivity of the frame splitter. -/
theorem splitNN_append : ∀ (s t : List Char),
    splitNN (s ++ t) = ((splitNN s).1 ++ (splitNN ((splitNN s).2 ++ t)).1,
                        (splitNN ((splitNN s).2 ++ t)).2) := by
  intro s t
  induction s using splitNN.induct with
  | case1 => simp [splitNN]
  | case2 c => simp [splitNN]
  | case3 c1 c2 r hd ih =>
    obtain ⟨h1, h2⟩ := hd
    subst h1; subst h2
    show splitNN ('\n' :: '\n' :: (r ++ t)) = _
    rw [splitNN, if_pos ⟨rfl, rfl⟩]
    conv_rhs => rw [splitNN, if_pos ⟨rfl, rfl⟩]
    simp only []
    rw [ih]
    simp
  | case4 c1 c2 r hnd p hp ih =>
    have hp' : (splitNN (c2 :: r)).1 = [] := hp
    have h2 := splitNN_leftover (c2 :: r) hp'
    show splitNN (c1 :: c2 :: (r ++ t)) = _
    conv_rhs => rw [splitNN, if_neg hnd]
    simp only [hp', h2]
    simp
  | case5 c1 c2 r hnd p h0 t0 hp ih =>
    have hp' : (splitNN (c2 :: r)).1 = h0 :: t0 := hp
    show splitNN (c1 :: c2 :: (r ++ t)) = _
    rw [splitNN, if_neg hnd]
    conv_rhs => rw [splitNN, if_neg hnd]
    simp only [hp']
    have ih' : splitNN (c2 :: (r ++ t)) =
        ((splitNN (c2 :: r)).1 ++ (splitNN ((splitNN (c2 :: r)).2 ++ t)).1,
         (splitNN ((splitNN (c2 :: r)).2 ++ t)).2) := ih
    rw [ih', hp']
    simp

theorem stepFrame_buffer (st : CState) (f : List Char) :
    (stepFrame st f).buffer = st.buffer := by
  unfold stepFrame; split <;> rfl

theorem stepFrame_setBuffer (st : CState) (b : List Char) (f : List Char) :
    stepFrame {st with buffer := b} f = {stepFrame st f with buffer := b} := by
  unfold stepFrame; split <;> rfl

theorem foldl_stepFrame_setBuffer (l : List (List Char)) (st : CState) (b : List Char) :
    l.foldl stepFrame {st with buffer := b} = {l.foldl stepFrame st with buffer := b} := by
  induction l generalizing st with
  | nil => rfl
  | cons f r ih =>
    rw [List.foldl_cons, List.foldl_cons, stepFrame_setBuffer, ih]

/-- Feeding two chunks is feeding their concatenation. -/
theorem feedChunk_append (st : CState) (c1 c2 : List Char) :
    feedChunk (feedChunk st c1) c2 = feedChunk st (c1 ++ c2) := by
  unfold feedChunk
  simp only []
  rw [foldl_stepFrame_setBuffer]
  rw [← List.append_assoc, splitNN_append (st.buffer ++ c1) c2]
  simp [List.foldl_append]

theorem foldl_feedChunk_join : ∀ (cs : List (List Char)) (st : CState) (c : List Char),
    cs.foldl feedChunk (feedChunk st c) = feedChunk st (c ++ cs.flatten) := by
  intro cs
  induction cs with
  | nil => intro st c; simp
  | cons c2 cs ih =>
    intro st c
    rw [List.foldl_cons, feedChunk_append, ih, List.flatten_cons, List.append_assoc]

theorem runScript_nil (cb : Cb) (s : RunSt) : runScript cb [] s = Except.ok s := rfl

theorem runScript_assign (cb : Cb) (f : Acc → Acc) (r : List SStep) (s : RunSt) :
    runScript cb (SStep.assign f :: r) s = runScript cb r (f s.1, s.2) := rfl

theorem runScript_fail (cb : Cb) (r : List SStep) (s : RunSt) :
    runScript cb (SStep.fail :: r) s = Except.error s := rfl

theorem runScript_call_true (cb : Cb) (g : Acc → Update) (r : List SStep) (s : RunSt)
    (h : cb (g s.1) = true) :
    runScript cb (SStep.call g :: r) s = Except.error (s.1, s.2 ++ [g s.1]) := by
  unfold runScript emit
  rw [if_pos h]

theorem runScript_call_false (cb : Cb) (g : Acc → Update) (r : List SStep) (s : RunSt)
    (h : cb (g s.1) = false) :
    runScript cb (SStep.call g :: r) s = runScript cb r (s.1, s.2 ++ [g s.1]) := by
  conv_lhs => unfold runScript emit
  rw [if_neg (by simp [h])]

/-- The `onUpdate` calls already made survive the rest of the dispatch. -/
theorem runScript_ups_mono : ∀ (sc : List SStep) (cb : Cb) (s : RunSt),
    s.2 <+: (unwrap (runScript cb sc s)).2 := by
  intro sc
  induction sc with
  | nil => intro cb s; exact List.prefix_refl _
  | cons step r ih =>
    intro cb s
    cases step with
    | assign f => exact ih cb (f s.1, s.2)
    | call g =>
      cases hcb : cb (g s.1) with
      | true =>
        rw [runScript_call_true cb g r s hcb]
        exact List.prefix_append _ _
      | false =>
        rw [runScript_call_false cb g r s hcb]
        exact (List.prefix_append s.2 [g s.1]).trans (ih cb (s.1, s.2 ++ [g s.1]))
    | fail => exact List.prefix_refl _

/-- With a throwing callback, the delivered `onUpdate` calls are a prefix of
the calls of the non-throwing run. -/
theorem runScript_ups_prefix : ∀ (sc : List SStep) (cb : Cb) (s : RunSt),
    (unwrap (runScript cb sc s)).2 <+: (unwrap (runScript (fun _ => false) sc s)).2 := by
  intro sc
  induction sc with
  | nil => intro cb s; exact List.prefix_refl _
  | cons step r ih =>
    intro cb s
    cases step with
    | assign f => exact ih cb (f s.1, s.2)
    | call g =>
      cases hcb : cb (g s.1) with
      | true =>
        rw [runScript_call_true cb g r s hcb,
            runScript_call_false (fun _ => false) g r s rfl]
        exact runScript_ups_mono r (fun _ => false) (s.1, s.2 ++ [g s.1])
      | false =>
        rw [runScript_call_false cb g r s hcb,
            runScript_call_false (fun _ => false) g r s rfl]
        exact ih cb (s.1, s.2 ++ [g s.1])
    | fail => exact List.prefix_refl _

/-- If the callback does not throw on any call made by the non-throwing run,
the two runs agree entirely. -/
theorem runScript_agree : ∀ (sc : List SStep) (cb : Cb) (s : RunSt),
    (∀ u ∈ (unwrap (runScript (fun _ => false) sc s)).2, cb u = false) →
    runScript cb sc s = runScript (fun _ => false) sc s := by
  intro sc
  induction sc with
  | nil => intro cb s _; rfl
  | cons step r ih =>
    intro cb s h
    cases step with
    | assign f => exact ih cb (f s.1, s.2) h
    | call g =>
      have hpre : (s.2 ++ [g s.1]) <+:
          (unwrap (runScript (fun _ => false) (SStep.call g :: r) s)).2 := by
        rw [runScript_call_false (fun _ => false) g r s rfl]
        exact runScript_ups_mono r (fun _ => false) (s.1, s.2 ++ [g s.1])
      have hcb : cb (g s.1) = false := h _ (hpre.subset (by simp))
      rw [runScript_call_false cb g r s hcb,
          runScript_call_false (fun _ => false) g r s rfl]
      apply ih
      intro u hu
      apply h
      rw [runScript_call_false (fun _ => false) g r s rfl]
      exact hu
    | fail => rfl

/-- If every mutation of the script only appends to `outputText`, so does the
whole dispatch, whatever the callback does. -/
theorem runScript_text_prefix : ∀ (sc : List SStep) (cb : Cb) (s : RunSt),
    (∀ f, SStep.assign f ∈ sc → ∀ a : Acc, a.outputText <+: (f a).outputText) →
    s.1.outputText <+: (unwrap (runScript cb sc s)).1.outputText := by
  intro sc
  induction sc with
  | nil => intro cb s _; exact List.prefix_refl _
  | cons step r ih =>
    intro cb s h
    cases step with
    | assign f =>
      refine (h f (by simp) s.1).trans ?_
      exact ih cb (f s.1, s.2) (fun f2 hf2 => h f2 (by simp [hf2]))
    | call g =>
      cases hcb : cb (g s.1) with
      | true =>
        rw [runScript_call_true cb g r s hcb]
        exact List.prefix_refl _
      | false =>
        rw [runScript_call_false cb g r s hcb]
        exact ih cb (s.1, s.2 ++ [g s.1]) (fun f2 hf2 => h f2 (by simp [hf2]))
    | fail => exact List.prefix_refl _

/-- If every mutation of the script preserves the accumulator invariant, the
whole dispatch preserves it. -/
theorem runScript_inv : ∀ (sc : List SStep) (cb : Cb) (s : RunSt),
    (∀ f, SStep.assign f ∈ sc → ∀ a : Acc, AccInv a → AccInv (f a)) →
    AccInv s.1 → AccInv (unwrap (runScript cb sc s)).1 := by
  intro sc
  induction sc with
  | nil => intro cb s _ hs; exact hs
  | cons step r ih =>
    intro cb s h hs
    cases step with
    | assign f =>
      exact ih cb (f s.1, s.2) (fun f2 hf2 => h f2 (by simp [hf2])) (h f (by simp) s.1 hs)
    | call g =>
      cases hcb : cb (g s.1) with
      | true =>
        rw [runScript_call_true cb g r s hcb]
        exact hs
      | false =>
        rw [runScript_call_false cb g r s hcb]
        exact ih cb (s.1, s.2 ++ [g s.1]) (fun f2 hf2 => h f2 (by simp [hf2])) hs
    | fail => exact hs


theorem foldl_lineStep_outputText : ∀ (ls : List (List Char)) (st : Acc × Bool × List Char),
    ((ls.foldl lineStep st).1).outputText = st.1.outputText := by
  intro ls
  induction ls with
  | nil => intro st; rfl
  | cons l r ih =>
    intro st
    rw [List.foldl_cons, ih]
    unfold lineStep
    split <;> split <;> rfl

theorem foldLines_outputText (text : List Char) (a : Acc) :
    ((foldLines text a).1).outputText = a.outputText := by
  unfold foldLines
  rw [foldl_lineStep_outputText]

theorem msgScript_assign_text (text : List Char) (a0 : Acc) (f : Acc → Acc)
    (hf : SStep.assign f ∈ msgScript text a0) (a : Acc) :
    a.outputText <+: (f a).outputText := by
  simp only [msgScript, List.mem_append] at hf
  split_ifs at hf <;>
    simp only [List.mem_cons, List.mem_singleton, List.not_mem_nil, or_false, false_or,
      SStep.assign.injEq] at hf
  all_goals repeat' (rcases hf with hf | hf)
  all_goals simp only [foldLines_outputText]
  all_goals
    first
      | exact List.prefix_refl _
      | exact List.prefix_append _ _


theorem lineStep_inv (st : Acc × Bool × List Char) (line : List Char)
    (h : AccInv st.1) : AccInv (lineStep st line).1 := by
  unfold lineStep
  split
  · split
    · intro _; rfl
    · intro hc; simp at hc
  · split
    · exact h
    · exact h

theorem foldl_lineStep_inv : ∀ (ls : List (List Char)) (st : Acc × Bool × List Char),
    AccInv st.1 → AccInv ((ls.foldl lineStep st).1) := by
  intro ls
  induction ls with
  | nil => intro st h; exact h
  | cons l r ih => intro st h; exact ih _ (lineStep_inv st l h)

theorem foldLines_inv (text : List Char) (a : Acc) (h : AccInv a) :
    AccInv (foldLines text a).1 := foldl_lineStep_inv _ _ h

theorem msgScript_assign_inv (text : List Char) (a0 : Acc) (f : Acc → Acc)
    (hf : SStep.assign f ∈ msgScript text a0) (a : Acc) (ha : AccInv a) :
    AccInv (f a) := by
  simp only [msgScript, List.mem_append] at hf
  split_ifs at hf <;>
    simp only [List.mem_cons, List.mem_singleton, List.not_mem_nil, or_false, false_or,
      SStep.assign.injEq] at hf
  all_goals repeat' (rcases hf with hf | hf)
  all_goals
    first
      | exact foldLines_inv text a ha
      | exact ha

theorem nodeScript_assign_text (node : Json) (f : Acc → Acc)
    (hf : SStep.assign f ∈ nodeScript node) (a : Acc) :
    a.outputText <+: (f a).outputText := by
  simp only [nodeScript] at hf
  rcases hA : upperOrDefault (getField node "nodeType".data) "PROCESSING".data with _ | ty1 <;>
  rcases hB : upperOrDefault (getField node "nodeType".data) "COMPLETED".data with _ | ty2 <;>
    simp only [hA, hB] at hf <;>
    split_ifs at hf <;>
    simp only [List.mem_cons, List.mem_singleton, List.not_mem_nil, or_false, false_or,
      SStep.assign.injEq] at hf
  all_goals repeat' (rcases hf with hf | hf)
  all_goals exact List.prefix_refl _

theorem nodeScript_assign_inv (node : Json) (f : Acc → Acc)
    (hf : SStep.assign f ∈ nodeScript node) (a : Acc) (ha : AccInv a) :
    AccInv (f a) := by
  simp only [nodeScript] at hf
  rcases hA : upperOrDefault (getField node "nodeType".data) "PROCESSING".data with _ | ty1 <;>
  rcases hB : upperOrDefault (getField node "nodeType".data) "COMPLETED".data with _ | ty2 <;>
    simp only [hA, hB] at hf <;>
    split_ifs at hf <;>
    simp only [List.mem_cons, List.mem_singleton, List.not_mem_nil, or_false, false_or,
      SStep.assign.injEq] at hf
  all_goals repeat' (rcases hf with hf | hf)
  all_goals
    first
      | (intro _; rfl)
      | (intro h; exact absurd h (by simp))
      | exact ha

theorem awaitScript_assign_text (input : Json) (a0 : Acc) (f : Acc → Acc)
    (hf : SStep.assign f ∈ awaitScript input a0) (a : Acc) :
    a.outputText <+: (f a).outputText := by
  simp only [awaitScript, List.mem_append] at hf
  split_ifs at hf <;>
    simp only [List.mem_cons, List.mem_singleton, List.not_mem_nil, or_false, false_or,
      SStep.assign.injEq] at hf
  all_goals repeat' (rcases hf with hf | hf)
  all_goals
    first
      | exact List.prefix_refl _
      | exact (List.prefix_append _ _).trans (List.prefix_append _ _)

theorem awaitScript_assign_inv (input : Json) (a0 : Acc) (f : Acc → Acc)
    (hf : SStep.assign f ∈ awaitScript input a0) (a : Acc) (ha : AccInv a) :
    AccInv (f a) := by
  simp only [awaitScript, List.mem_append] at hf
  split_ifs at hf <;>
    simp only [List.mem_cons, List.mem_singleton, List.not_mem_nil, or_false, false_or,
      SStep.assign.injEq] at hf
  all_goals repeat' (rcases hf with hf | hf)
  all_goals
    first
      | (intro _; rfl)
      | exact ha

theorem eventScript_assign_text (ev : List Char) (a0 : Acc) (f : Acc → Acc)
    (hf : SStep.assign f ∈ eventScript ev a0) (a : Acc) :
    a.outputText <+: (f a).outputText := by
  simp only [eventScript] at hf
  split at hf
  · simp at hf
  · split at hf
    · simp at hf
    · split at hf
      · split at hf
        · simp at hf
        · split at hf
          · split at hf
            · exact msgScript_assign_text _ _ _ hf a
            · simp at hf
          · simp at hf
      · split at hf
        · split at hf
          · simp at hf
          · exact nodeScript_assign_text _ _ hf a
        · split at hf
          · split at hf
            · simp at hf
            · exact awaitScript_assign_text _ _ _ hf a
          · simp at hf

theorem eventScript_assign_inv (ev : List Char) (a0 : Acc) (f : Acc → Acc)
    (hf : SStep.assign f ∈ eventScript ev a0) (a : Acc) (ha : AccInv a) :
    AccInv (f a) := by
  simp only [eventScript] at hf
  split at hf
  · simp at hf
  · split at hf
    · simp at hf
    · split at hf
      · split at hf
        · simp at hf
        · split at hf
          · split at hf
            · exact msgScript_assign_inv _ _ _ hf a ha
            · simp at hf
          · simp at hf
      · split at hf
        · split at hf
          · simp at hf
          · exact nodeScript_assign_inv _ _ hf a ha
        · split at hf
          · split at hf
            · simp at hf
            · exact awaitScript_assign_inv _ _ _ hf a ha
          · simp at hf



/-! ## Claim theorems -/

/-- C2: For every finite stream text and every way of splitting it into a
sequence of chunks, driving the Stream Consumer incrementally over those
chunks produces exactly the same sequence of `onUpdate` invocations (same
arguments, same order) and the same final accumulator state as feeding the
entire stream as one single chunk. -/
theorem claim_C2_chunk_invariance (chunks : List (List Char)) :
    runStream chunks = runStream [chunks.flatten] := by
  cases chunks with
  | nil =>
    show runStream [] = runStream [[]]
    have h : feedChunk initCState [] = initCState := by decide
    unfold runStream
    rw [List.foldl_cons, List.foldl_nil, h, List.foldl_nil]
  | cons c cs =>
    unfold runStream
    rw [List.foldl_cons, foldl_feedChunk_join, List.foldl_cons, List.foldl_nil,
      List.flatten_cons]

/-- C3: Across all events dispatched during one stream consumption,
`outputText` only grows by appending — after every `processEvent` call the
previous value of `outputText` is a prefix of the new value; it never shrinks
and is never rewritten in place. -/
theorem claim_C3_outputText_append_only (ev : List Char) (acc : Acc) :
    acc.outputText <+: (processEvent ev acc).1.outputText := by
  unfold processEvent processEventCb
  exact runScript_text_prefix (eventScript ev acc) (fun _ => false) (acc, [])
    (fun f hf a => eventScript_assign_text ev acc f hf a)

/-- C7: Every dispatch transition that sets `shouldAccumulate` to true also
sets `currentStatus` to null in that same transition; consequently, after
every `processEvent` call, `shouldAccumulate = true` implies
`currentStatus = null`. -/
theorem claim_C7_accumulate_clears_status (ev : List Char) (acc : Acc)
    (h : AccInv acc) : AccInv (processEvent ev acc).1 := by
  unfold processEvent processEventCb
  exact runScript_inv (eventScript ev acc) (fun _ => false) (acc, [])
    (fun f hf a ha => eventScript_assign_inv ev acc f hf a ha) h

/-- Witness for C7 at a concrete frame and the fresh accumulator. -/
theorem claim_C7_witness : AccInv (processEvent frameRunning initAcc).1 :=
  claim_C7_accumulate_clears_status frameRunning initAcc
    (fun h => absurd h (by decide))

/-- C10: For every event frame and every caller-supplied `onUpdate` callback,
including callbacks that throw, `processEvent` never propagates an exception:
the error is caught by the same handler that swallows JSON decode failures,
abandoning only the remainder of that frame's dispatch.  Formally:
`processEventCb` is total, the `onUpdate` calls it makes are a prefix of the
non-throwing run's calls, and if the callback throws on none of those calls
the two runs agree exactly (state and calls). -/
theorem claim_C10_callback_exceptions (cb : Cb) (ev : List Char) (acc : Acc) :
    (processEventCb cb ev acc).2 <+: (processEvent ev acc).2 ∧
    ((∀ u ∈ (processEvent ev acc).2, cb u = false) →
      processEventCb cb ev acc = processEvent ev acc) := by
  constructor
  · unfold processEvent processEventCb
    exact runScript_ups_prefix (eventScript ev acc) cb (acc, [])
  · intro h
    unfold processEvent processEventCb
    rw [runScript_agree (eventScript ev acc) cb (acc, []) h]

/-- Witness for C10 at a concrete callback, frame and accumulator. -/
theorem claim_C10_witness :
    processEventCb (fun _ => false) frameRunning initAcc =
      processEvent frameRunning initAcc :=
  (claim_C10_callback_exceptions (fun _ => false) frameRunning initAcc).2
    (fun _ _ => rfl)



/-- A frame whose data does not parse leaves any accumulator untouched and
makes no `onUpdate` call. -/
theorem processEvent_bad_json (ev : List Char) (h : parseJson (decodeFrame ev).2 = none) :
    ∀ a : Acc, processEvent ev a = (a, []) := by
  intro a
  unfold processEvent processEventCb eventScript
  by_cases hd : (decodeFrame ev).2.isEmpty
  · rw [if_pos hd]; rfl
  · rw [if_neg hd, h]; rfl

/-- C8: For every frame whose data fails JSON decoding, `processEvent`
returns normally (the thrown `SyntaxError` is swallowed by the dispatch's
catch), leaves every field of the accumulator unchanged, invokes `onUpdate`
zero times, and the Stream Consumer continues to process subsequent frames
of the same stream. -/
theorem claim_C8_bad_json_skipped (ev : List Char) (acc : Acc)
    (h : parseJson (decodeFrame ev).2 = none) :
    processEvent ev acc = (acc, []) ∧
    (∀ (st : CState) (rest : List (List Char)),
      (ev :: rest).foldl stepFrame st = rest.foldl stepFrame st) := by
  refine ⟨processEvent_bad_json ev h acc, ?_⟩
  intro st rest
  rw [List.foldl_cons]
  have hstep : stepFrame st ev = st := by
    unfold stepFrame
    split
    · rfl
    · rw [processEvent_bad_json ev h st.acc]
      simp
  rw [hstep]

/-- Witness for C8 at a concrete malformed frame. -/
theorem claim_C8_witness : processEvent frameBadJson initAcc = (initAcc, []) :=
  (claim_C8_bad_json_skipped frameBadJson initAcc (by decide)).1

set_option maxRecDepth 40000 in
/-- C1 counterexample: on the claim's exact three-input scenario (frame 1
with the OUTCOME-Finished status line and "Hello ", frame 2 with "world.",
then end-of-stream) the final `outputText` is not `"Hello world."`. -/
theorem claim_C1_counterexample :
    (runStream scenarioChunks).1.outputText ≠ "Hello world.".data := by decide

set_option maxRecDepth 40000 in
/-- C1 (amended): the end-to-end scenario yields `outputText =
"Hello \nworld.\n"` — the status line is dropped, and each accumulated line
is re-joined with a trailing newline, so frame 1 contributes "Hello \n" and
frame 2 contributes "world.\n". -/
theorem claim_C1_end_to_end :
    (runStream scenarioChunks).1.outputText = "Hello \nworld.\n".data := by decide



/-- Running the `awaiting-user-input` script from `(acc, [])` with a
non-throwing callback: closed form of the final state and the single final
`onUpdate` call. -/
theorem awaitScript_run (input : Json) (acc : Acc) :
    unwrap (runScript (fun _ => false) (awaitScript input acc) (acc, [])) =
      (let q := jsOr (getField input "message".data)
                  (jsOr (getField input "question".data) (getField input "prompt".data))
       let a4 : Acc :=
         {acc with
           executionId := getField input "executionId".data
           complete := true
           awaitingInput := true
           currentStatus := none
           shouldAccumulate := true}
       let sep : List Char := if !(trimJs a4.outputText).isEmpty then "\n\n".data else []
       let a5 : Acc :=
         if jsTruthy q && !(jsIncludes acc.outputText (jsToString q)) then
           {a4 with outputText := a4.outputText ++ sep ++ jsToString q}
         else a4
       let a6 : Acc := {a5 with awaitingInputMessage := jsOr q Json.null}
       (a6, [⟨a6.outputText, none⟩])) := by
  simp only [awaitScript]
  split_ifs with h1 h2 h3 <;>
    first
      | rfl
      | simp_all [runScript, emit, unwrap, List.isEmpty_iff]


/-- Dispatching a frame whose decoded event type is `awaiting-user-input` and
whose data parses to a non-null value runs exactly the awaiting script. -/
theorem processEvent_await (ev : List Char) (acc : Acc) (p : Json)
    (hdec : (decodeFrame ev).1 = "awaiting-user-input".data)
    (hparse : parseJson (decodeFrame ev).2 = some p)
    (hobj : p ≠ Json.null) :
    processEvent ev acc = unwrap (runScript (fun _ => false) (awaitScript p acc) (acc, [])) := by
  unfold processEvent processEventCb eventScript
  have hne : ¬((decodeFrame ev).2.isEmpty = true) := by
    cases hE : (decodeFrame ev).2 with
    | nil =>
      rw [hE, show parseJson [] = none from rfl] at hparse
      exact Option.noConfusion hparse
    | cons a l => simp
  rw [if_neg hne, hparse, hdec]
  cases p <;> first | exact absurd rfl hobj | rfl

/-- C6: For every `awaiting-user-input` frame whose data decodes to a JSON
object carrying an `executionId`, dispatching it sets `executionId` to the
payload's value (hence non-null), `complete = true`, `awaitingInput = true`,
`currentStatus = null`, `shouldAccumulate = true`, and ends with an
`onUpdate` invocation whose status argument is null. -/
theorem claim_C6_awaiting_input (ev : List Char) (acc : Acc) (p : Json) (v : Json)
    (hdec : (decodeFrame ev).1 = "awaiting-user-input".data)
    (hparse : parseJson (decodeFrame ev).2 = some p)
    (hobj : ∃ fs, p = Json.obj fs)
    (hfield : getField p "executionId".data = v) (hv : v ≠ Json.null) :
    (processEvent ev acc).1.executionId = v ∧ v ≠ Json.null ∧
    (processEvent ev acc).1.complete = true ∧
    (processEvent ev acc).1.awaitingInput = true ∧
    (processEvent ev acc).1.currentStatus = none ∧
    (processEvent ev acc).1.shouldAccumulate = true ∧
    (processEvent ev acc).2.getLast? = some ⟨(processEvent ev acc).1.outputText, none⟩ := by
  obtain ⟨fs, rfl⟩ := hobj
  rw [processEvent_await ev acc _ hdec hparse (by simp), awaitScript_run]
  simp only []
  split_ifs <;> simp [hfield, hv]


/-- Witness for C6 at a concrete awaiting frame and the fresh accumulator. -/
theorem claim_C6_witness :
    (processEvent frameAwaitId initAcc).1.executionId = Json.str "e1".data ∧
    Json.str "e1".data ≠ Json.null ∧
    (processEvent frameAwaitId initAcc).1.complete = true ∧
    (processEvent frameAwaitId initAcc).1.awaitingInput = true ∧
    (processEvent frameAwaitId initAcc).1.currentStatus = none ∧
    (processEvent frameAwaitId initAcc).1.shouldAccumulate = true ∧
    (processEvent frameAwaitId initAcc).2.getLast? =
      some ⟨(processEvent frameAwaitId initAcc).1.outputText, none⟩ :=
  claim_C6_awaiting_input frameAwaitId initAcc
    (Json.obj (JsonObj.cons "executionId".data (Json.str "e1".data) JsonObj.nil))
    (Json.str "e1".data) (by decide) (by decide) ⟨_, rfl⟩ (by decide) (by decide)

/-- C9 (amended): in `awaiting-user-input` dispatch, when the payload carries
a message/question/prompt string Q (the first truthy of the three), Q is
appended to `outputText` preceded by a blank-line separator exactly when
`outputText` is nonblank — nonempty after trimming whitespace — (and with no
separator when it is blank); when Q is already a substring of `outputText`,
`outputText` is left unchanged. -/
theorem claim_C9_question_append (ev : List Char) (acc : Acc) (p : Json) (Q : List Char)
    (hdec : (decodeFrame ev).1 = "awaiting-user-input".data)
    (hparse : parseJson (decodeFrame ev).2 = some p)
    (hobj : ∃ fs, p = Json.obj fs)
    (hq : jsOr (getField p "message".data)
            (jsOr (getField p "question".data) (getField p "prompt".data)) = Json.str Q)
    (hQ : Q ≠ []) :
    (processEvent ev acc).1.outputText =
      if jsIncludes acc.outputText Q then acc.outputText
      else acc.outputText ++
        (if trimJs acc.outputText = [] then [] else "\n\n".data) ++ Q := by
  obtain ⟨fs, rfl⟩ := hobj
  rw [processEvent_await ev acc _ hdec hparse (by simp), awaitScript_run]
  simp only [hq]
  have ht : jsTruthy (Json.str Q) = true := by
    simp [jsTruthy, List.isEmpty_iff, hQ]
  have hs : jsToString (Json.str Q) = Q := rfl
  rw [ht, hs]
  by_cases hinc : jsIncludes acc.outputText Q = true
  · simp [hinc]
  · simp only [Bool.not_eq_true] at hinc
    simp only [hinc, if_neg, Bool.and_true, Bool.not_false, Bool.true_and]
    by_cases htr : trimJs acc.outputText = []
    · simp [htr, List.isEmpty_iff]
    · simp [htr, List.isEmpty_iff]


set_option maxRecDepth 40000 in
/-- C9 counterexample: with whitespace-only (hence non-empty) `outputText`
and a fresh question `Q!`, the code appends with NO separator — the claim
predicts a blank-line separator since `outputText` is non-empty. -/
theorem claim_C9_counterexample :
    (processEvent frameAwaitQ accWsOnly).1.outputText = " Q!".data ∧
    (processEvent frameAwaitQ accWsOnly).1.outputText ≠
      " ".data ++ "\n\n".data ++ "Q!".data := by decide

/-- Witness for C9 at a concrete awaiting frame and the fresh accumulator. -/
theorem claim_C9_witness :
    (processEvent frameAwaitQ initAcc).1.outputText =
      if jsIncludes initAcc.outputText "Q!".data then initAcc.outputText
      else initAcc.outputText ++
        (if trimJs initAcc.outputText = [] then [] else "\n\n".data) ++ "Q!".data :=
  claim_C9_question_append frameAwaitQ initAcc
    (Json.obj (JsonObj.cons "executionId".data (Json.str "e1".data)
      (JsonObj.cons "question".data (Json.str "Q!".data) JsonObj.nil)))
    "Q!".data (by decide) (by decide) ⟨_, rfl⟩ (by decide) (by decide)



theorem wsSplitsDesc_sound : ∀ (s : List Char) (p : List Char × List Char),
    p ∈ wsSplitsDesc s → p.1 ++ p.2 = s ∧ p.1.all isJsWs = true := by
  intro s
  induction s with
  | nil =>
    intro p hp
    simp [wsSplitsDesc] at hp
    subst hp
    exact ⟨rfl, rfl⟩
  | cons c t ih =>
    intro p hp
    simp only [wsSplitsDesc] at hp
    by_cases hc : isJsWs c = true
    · rw [if_pos hc] at hp
      rcases List.mem_append.1 hp with h | h
      · rcases List.mem_map.1 h with ⟨q, hq, rfl⟩
        obtain ⟨h1, h2⟩ := ih q hq
        refine ⟨by simp [h1], ?_⟩
        simp [List.all_cons, hc, h2]
      · simp at h
        subst h
        exact ⟨rfl, rfl⟩
    · rw [if_neg hc] at hp
      simp at hp
      subst hp
      exact ⟨rfl, rfl⟩

theorem wsPlusSplitsDesc_sound : ∀ (s : List Char) (p : List Char × List Char),
    p ∈ wsPlusSplitsDesc s →
    p.1 ++ p.2 = s ∧ p.1 ≠ [] ∧ p.1.all isJsWs = true := by
  intro s p hp
  unfold wsPlusSplitsDesc at hp
  obtain ⟨hmem, hne⟩ := List.mem_filter.1 hp
  obtain ⟨h1, h2⟩ := wsSplitsDesc_sound s p hmem
  refine ⟨h1, ?_, h2⟩
  intro hnil
  rw [hnil] at hne
  simp at hne

theorem dotSplitsAsc_sound : ∀ (s : List Char) (p : List Char × List Char),
    p ∈ dotSplitsAsc s → p.1 ++ p.2 = s ∧ p.1 ≠ [] := by
  intro s
  induction s with
  | nil => intro p hp; simp [dotSplitsAsc] at hp
  | cons c t ih =>
    intro p hp
    simp only [dotSplitsAsc] at hp
    by_cases hc : isDot c = true
    · rw [if_pos hc] at hp
      rcases List.mem_cons.1 hp with h | h
      · subst h; exact ⟨rfl, by simp⟩
      · rcases List.mem_map.1 h with ⟨q, hq, rfl⟩
        obtain ⟨h1, h2⟩ := ih q hq
        exact ⟨by simp [h1], by simp⟩
    · rw [if_neg hc] at hp
      simp at hp

theorem matchTail_sound (s : List Char) (w2 post : List Char)
    (h : matchTail s = some (w2, post)) :
    s = w2 ++ markerL ++ post ∧ w2 ≠ [] ∧ w2.all isJsWs = true := by
  unfold matchTail at h
  obtain ⟨q, hq, hf⟩ := List.exists_of_findSome?_eq_some h
  by_cases hpre : markerL.isPrefixOf q.2 = true
  · rw [if_pos hpre] at hf
    obtain ⟨rfl, rfl⟩ : w2 = q.1 ∧ post = q.2.drop 6 := by
      have := Option.some.inj hf
      exact ⟨(congrArg Prod.fst this).symm, (congrArg Prod.snd this).symm⟩
    obtain ⟨h1, h2, h3⟩ := wsPlusSplitsDesc_sound s q hq
    obtain ⟨t, ht⟩ := List.isPrefixOf_iff_prefix.1 hpre
    refine ⟨?_, h2, h3⟩
    rw [← h1, ← ht]
    have h6 : markerL.length = 6 := rfl
    rw [show (markerL ++ t).drop 6 = t from by rw [← h6]; exact List.drop_left _ _]
    simp
  · rw [if_neg hpre] at hf
    exact Option.noConfusion hf

theorem matchAfterMarker_sound (s : List Char) (w1 cap w2 post : List Char)
    (h : matchAfterMarker s = some (w1, cap, w2, post)) :
    s = w1 ++ cap ++ w2 ++ markerL ++ post ∧
    w1 ≠ [] ∧ w1.all isJsWs = true ∧ cap ≠ [] ∧ w2 ≠ [] ∧ w2.all isJsWs = true := by
  unfold matchAfterMarker at h
  obtain ⟨q, hq, hf⟩ := List.exists_of_findSome?_eq_some h
  obtain ⟨r, hr, hf2⟩ := List.exists_of_findSome?_eq_some hf
  cases hmt : matchTail r.2 with
  | none => rw [hmt] at hf2; exact Option.noConfusion hf2
  | some t =>
    rw [hmt] at hf2
    obtain ⟨ht1, ht2, ht3⟩ := matchTail_sound r.2 t.1 t.2 (by rw [hmt])
    have := Option.some.inj hf2
    obtain ⟨rfl, rfl, rfl, rfl⟩ : w1 = q.1 ∧ cap = r.1 ∧ w2 = t.1 ∧ post = t.2 := by
      refine ⟨(congrArg Prod.fst this).symm, ?_, ?_, ?_⟩
      · exact (congrArg (fun x => x.2.1) this).symm
      · exact (congrArg (fun x => x.2.2.1) this).symm
      · exact (congrArg (fun x => x.2.2.2) this).symm
    obtain ⟨hq1, hq2, hq3⟩ := wsPlusSplitsDesc_sound s q hq
    obtain ⟨hr1, hr2⟩ := dotSplitsAsc_sound q.2 r hr
    refine ⟨?_, hq2, hq3, hr2, ht2, ht3⟩
    rw [← hq1, ← hr1, ht1]
    simp

theorem findEnvelope_sound : ∀ (L : List Char) (pre w1 cap w2 post : List Char),
    findEnvelope L = some (pre, w1, cap, w2, post) →
    L = pre ++ markerL ++ w1 ++ cap ++ w2 ++ markerL ++ post ∧
    w1 ≠ [] ∧ w1.all isJsWs = true ∧ cap ≠ [] ∧ w2 ≠ [] ∧ w2.all isJsWs = true := by
  intro L
  induction L with
  | nil => intro pre w1 cap w2 post h; simp [findEnvelope] at h
  | cons c t ih =>
    intro pre w1 cap w2 post h
    rw [findEnvelope] at h
    by_cases hpre : markerL.isPrefixOf (c :: t) = true
    · rw [if_pos hpre] at h
      cases hA : matchAfterMarker ((c :: t).drop 6) with
      | none =>
        rw [hA] at h
        obtain ⟨q, hq⟩ := Option.map_eq_some'.1 h
        obtain ⟨hq1, hq2⟩ := hq
        obtain ⟨h1, h2, h3, h4, h5, h6⟩ := ih q.1 q.2.1 q.2.2.1 q.2.2.2.1 q.2.2.2.2 hq1
        have : pre = c :: q.1 ∧ w1 = q.2.1 ∧ cap = q.2.2.1 ∧ w2 = q.2.2.2.1 ∧ post = q.2.2.2.2 := by
          refine ⟨(congrArg Prod.fst hq2).symm, ?_, ?_, ?_, ?_⟩
          · exact (congrArg (fun x => x.2.1) hq2).symm
          · exact (congrArg (fun x => x.2.2.1) hq2).symm
          · exact (congrArg (fun x => x.2.2.2.1) hq2).symm
          · exact (congrArg (fun x => x.2.2.2.2) hq2).symm
        obtain ⟨rfl, rfl, rfl, rfl, rfl⟩ := this
        exact ⟨by simp [h1], h2, h3, h4, h5, h6⟩
      | some a =>
        rw [hA] at h
        obtain ⟨hm1, hm2, hm3, hm4, hm5, hm6⟩ :=
          matchAfterMarker_sound _ a.1 a.2.1 a.2.2.1 a.2.2.2 hA
        have : pre = [] ∧ w1 = a.1 ∧ cap = a.2.1 ∧ w2 = a.2.2.1 ∧ post = a.2.2.2 := by
          have h2 := Option.some.inj h
          refine ⟨(congrArg Prod.fst h2).symm, ?_, ?_, ?_, ?_⟩
          · exact (congrArg (fun x => x.2.1) h2).symm
          · exact (congrArg (fun x => x.2.2.1) h2).symm
          · exact (congrArg (fun x => x.2.2.2.1) h2).symm
          · exact (congrArg (fun x => x.2.2.2.2) h2).symm
        obtain ⟨rfl, rfl, rfl, rfl, rfl⟩ := this
        obtain ⟨u, hu⟩ := List.isPrefixOf_iff_prefix.1 hpre
        refine ⟨?_, hm2, hm3, hm4, hm5, hm6⟩
        have hd : (c :: t).drop 6 = u := by
          rw [← hu]
          have h6 : markerL.length = 6 := rfl
          rw [← h6]
          exact List.drop_left _ _
        have hu2 : u = a.1 ++ a.2.1 ++ a.2.2.1 ++ markerL ++ a.2.2.2 := by
          rw [← hd, hm1]
        rw [← hu, hu2]
        simp
    · rw [if_neg hpre] at h
      simp only [] at h
      cases hF : findEnvelope t with
      | none => rw [hF] at h; exact Option.noConfusion h
      | some q =>
        rw [hF] at h
        obtain ⟨h1, h2, h3, h4, h5, h6⟩ := ih q.1 q.2.1 q.2.2.1 q.2.2.2.1 q.2.2.2.2 (by rw [hF])
        have : pre = c :: q.1 ∧ w1 = q.2.1 ∧ cap = q.2.2.1 ∧ w2 = q.2.2.2.1 ∧ post = q.2.2.2.2 := by
          have hq2 := Option.some.inj h
          refine ⟨(congrArg Prod.fst hq2).symm, ?_, ?_, ?_, ?_⟩
          · exact (congrArg (fun x => x.2.1) hq2).symm
          · exact (congrArg (fun x => x.2.2.1) hq2).symm
          · exact (congrArg (fun x => x.2.2.2.1) hq2).symm
          · exact (congrArg (fun x => x.2.2.2.2) hq2).symm
        obtain ⟨rfl, rfl, rfl, rfl, rfl⟩ := this
        exact ⟨by simp [h1], h2, h3, h4, h5, h6⟩


/-- A successful `parseStatusLine` means the line contains the envelope (with
a colon inside the captured content). -/
theorem parseStatusLine_sound (L : List Char) (r : PStatus)
    (h : parseStatusLine L = some r) : ContainsEnvelope L := by
  unfold parseStatusLine at h
  cases hF : findEnvelope L with
  | none => rw [hF] at h; exact Option.noConfusion h
  | some q =>
    obtain ⟨pre, w1, cap, w2, post⟩ := q
    rw [hF] at h
    by_cases hc : cap.contains ':' = true
    · obtain ⟨h1, h2, h3, h4, h5, h6⟩ :=
        findEnvelope_sound L pre w1 cap w2 post (by rw [hF])
      exact ⟨pre, w1, cap, w2, post, h1, h2, h3, h4, h5, h6,
        List.mem_of_elem_eq_true hc⟩
    · simp only [Bool.not_eq_true] at hc
      simp at hc
      simp [hc] at h

/-- C4 (amended): `parseStatusLine` returns null unless the line *contains*
the marker-enclosed envelope — marker, whitespace, captured content with a
colon, whitespace, marker — as a substring (the regex is unanchored); on the
example line it returns `{type: OUTCOME, title: Legal reasoning, status:
Finished}`. -/
theorem claim_C4_status_line :
    (∀ (L : List Char) (r : PStatus), parseStatusLine L = some r → ContainsEnvelope L) ∧
    parseStatusLine statusLineExample =
      some ⟨"OUTCOME".data, "Legal reasoning".data, some "Finished".data⟩ :=
  ⟨parseStatusLine_sound, by decide⟩

/-- Witness for C4's soundness half at the example line. -/
theorem claim_C4_witness : ContainsEnvelope statusLineExample :=
  claim_C4_status_line.1 statusLineExample
    ⟨"OUTCOME".data, "Legal reasoning".data, some "Finished".data⟩ (by decide)

/-- C4 counterexample: a line with junk before the envelope is not *exactly*
the envelope, yet `parseStatusLine` still returns a record (the regex is
unanchored). -/
theorem claim_C4_counterexample :
    parseStatusLine statusLinePadded = some ⟨"A".data, "B".data, none⟩ ∧
    ¬ ExactEnvelope statusLinePadded := by
  constructor
  · decide
  · rintro ⟨w1, c, w2, h, -⟩
    have hx : statusLinePadded = 'x' :: "━━━━━━ A: B ━━━━━━".data := by decide
    have hm : markerL = Char.ofNat 0x2501 :: List.replicate 5 (Char.ofNat 0x2501) := by
      decide
    rw [hx, hm] at h
    simp only [List.cons_append, List.cons.injEq] at h
    exact absurd h.1 (by decide)


/-- A line starting with `event:` cannot also start with `data:`. -/
theorem not_data_of_event (l : List Char) (h : "event:".data.isPrefixOf l = true) :
    "data:".data.isPrefixOf l = false := by
  obtain ⟨t, ht⟩ := List.isPrefixOf_iff_prefix.1 h
  by_contra hd
  simp only [Bool.not_eq_false] at hd
  obtain ⟨u, hu⟩ := List.isPrefixOf_iff_prefix.1 hd
  rw [← ht] at hu
  have he : "event:".data = 'e' :: "vent:".data := by decide
  rw [he] at hu
  simp only [List.cons_append, List.cons.injEq] at hu
  exact absurd hu.1 (by decide)

/-- Folding the decoder body over raw lines, trimming inside, is folding the
trim-free body over the pre-trimmed lines. -/
theorem decode_fold_eq : ∀ (L : List (List Char)) (acc : List Char × List (List Char)),
    L.foldl (fun acc line =>
        let t := trimJs line
        if "event:".data.isPrefixOf t then (trimJs (t.drop 6), acc.2)
        else if "data:".data.isPrefixOf t then (acc.1, acc.2 ++ [t.drop 5])
        else acc) acc
      = (L.map trimJs).foldl (fun acc t =>
        if "event:".data.isPrefixOf t then (trimJs (t.drop 6), acc.2)
        else if "data:".data.isPrefixOf t then (acc.1, acc.2 ++ [t.drop 5])
        else acc) acc := by
  intro L
  induction L with
  | nil => intro acc; rfl
  | cons l r ih => intro acc; rw [List.foldl_cons, List.map_cons, List.foldl_cons, ih]

/-- The paired fold of the decoder splits into the event-type fold and the
declarative filter/map of `data:` lines. -/
theorem fold_data_spec : ∀ (M : List (List Char)) (et : List Char) (ds : List (List Char)),
    M.foldl (fun acc t =>
        if "event:".data.isPrefixOf t then (trimJs (t.drop 6), acc.2)
        else if "data:".data.isPrefixOf t then (acc.1, acc.2 ++ [t.drop 5])
        else acc) (et, ds)
      = (M.foldl (fun a t => if "event:".data.isPrefixOf t then trimJs (t.drop 6) else a) et,
         ds ++ (M.filter (fun t => "data:".data.isPrefixOf t)).map (fun t => t.drop 5)) := by
  intro M
  induction M with
  | nil => intro et ds; simp
  | cons t r ih =>
    intro et ds
    by_cases he : "event:".data.isPrefixOf t = true
    · have hd := not_data_of_event t he
      simp only [List.foldl_cons, List.filter_cons, he, hd, if_true, Bool.false_eq_true,
        if_false, ih]
    · by_cases hd : "data:".data.isPrefixOf t = true
      · simp only [List.foldl_cons, List.filter_cons, he, hd, if_true, Bool.false_eq_true,
          if_false, ih, List.map_cons]
        simp
      · simp only [List.foldl_cons, List.filter_cons, he, hd, Bool.false_eq_true, if_false,
          ih]

/-- C5 (amended): for every raw frame text, the decoder's result equals the
declarative description over the blank-line-filtered, trimmed lines: the
event type defaults to "message" and is overwritten by any (trimmed)
`event:` line's remainder further trimmed, and `data` is the newline-join of
each trimmed `data:` line's remainder after the 5-character prefix, not
trimmed further. -/
theorem claim_C5_frame_decoder (f : List Char) : decodeFrame f = decodeFrameSpec f := by
  unfold decodeFrame decodeFrameSpec
  simp only []
  rw [decode_fold_eq]
  have hswap : ((splitCh '\n' f).filter (fun l => !(trimJs l).isEmpty)).map trimJs
      = ((splitCh '\n' f).map trimJs).filter (fun l => !l.isEmpty) := by
    rw [List.filter_map]
    rfl
  rw [← hswap, fold_data_spec]
  simp

/-- C5 counterexample: a frame whose `data:` line ends in a space.  The
decoder trims the line before taking the remainder, so the trailing space is
lost; the claim's literal reading (the raw line's remainder, verbatim) keeps
it. -/
theorem claim_C5_counterexample :
    (decodeFrame frameTrailingWs).2 = " hi".data ∧
    (decodeFrameLit frameTrailingWs).2 = " hi ".data ∧
    (decodeFrame frameTrailingWs).2 ≠ (decodeFrameLit frameTrailingWs).2 := by decide


end ACAB
